import Mathlib

/-!
# Model of the TizenFMDefault radio application core

A shallow embedding of the station-preset store (`src/js/models/stations.js`),
the tuner session (`src/js/models/radio.js`) and the manual-tuning resolution
(`tune` in `src/js/views/main.js`).

JavaScript numbers are modelled as rationals (`ℚ`); arrays of station records
as lists of `Station`; the fallible array indexing `stationList[0]` /
`stationList[len - 1]` on a possibly-empty array is modelled with `Option`
(`none` marks the out-of-bounds access that throws at runtime).
-/

namespace Stations

/-- A saved station, `{name: ..., frequency: ...}` in `stations.js`. -/
structure Station where
  name : String
  frequency : ℚ
deriving DecidableEq, Repr

/-- The ordering used by `compare(a, b) = a.frequency - b.frequency`
(`stations.js` line 89): `a` sorts no later than `b` iff
`a.frequency ≤ b.frequency`. -/
def stLE (a b : Station) : Prop := a.frequency ≤ b.frequency

instance : DecidableRel stLE :=
  fun a b => inferInstanceAs (Decidable (a.frequency ≤ b.frequency))

instance : IsTotal Station stLE := ⟨fun a b => le_total a.frequency b.frequency⟩

instance : IsTrans Station stLE := ⟨fun _ _ _ h h' => le_trans h h'⟩

/-- Model of `stationList.sort(compare)` (`stations.js` line 189): a stable sort by
ascending frequency, modelled by insertion sort (ECMAScript `Array.sort` with
a consistent comparator is a stable sort, and all stable sorts agree). -/
def sortStations (l : List Station) : List Station := l.insertionSort stLE

/-- The search loop of `save` (`stations.js` lines 176-185): walk the list;
at the first station with the given frequency, overwrite its name when
`overwrite === true` and stop (`break`).  Returns `none` when no station has
the frequency (`exists` stays false). -/
def saveLoop (name : String) (frequency : ℚ) (overwrite : Bool) :
    List Station → Option (List Station)
  | [] => none
  | s :: rest =>
    if s.frequency = frequency then
      some ((if overwrite then { s with name := name } else s) :: rest)
    else
      (saveLoop name frequency overwrite rest).map (s :: ·)

/-- Model of `save(name, frequency, overwrite)` (`stations.js` lines 170-193): if a
station with this exact frequency exists the loop handles it, otherwise the
new record is pushed and the list re-sorted by frequency.  (`saveToDatabase`
is a fire-and-forget persistence side effect, not part of the list state.) -/
def save (name : String) (frequency : ℚ) (overwrite : Bool)
    (l : List Station) : List Station :=
  match saveLoop name frequency overwrite l with
  | some l' => l'
  | none => sortStations (l ++ [{ name := name, frequency := frequency }])

/-- Model of `remove(frequency)` (`stations.js` lines 203-216): splice out the first
station with exactly this frequency and stop (`break`); no-op when absent. -/
def remove (frequency : ℚ) : List Station → List Station
  | [] => []
  | s :: rest =>
    if s.frequency = frequency then rest else s :: remove frequency rest

/-- Model of `removeAll()` (`stations.js` lines 225-228): `stationList = []`. -/
def removeAll : List Station := []

/-- Model of `nextStation(freq)` (`stations.js` lines 237-249): first station in list
order with frequency strictly above `freq`; otherwise `stationList[0]`, which
on an empty list is an out-of-bounds access (modelled as `none`). -/
def nextStation (freq : ℚ) (l : List Station) : Option ℚ :=
  match l.find? (fun s => decide (freq < s.frequency)) with
  | some s => some s.frequency
  | none => l.head?.map Station.frequency

/-- Model of `prevStation(freq)` (`stations.js` lines 258-270): walk from the end of
the list, returning the first station with frequency strictly below `freq`;
otherwise `stationList[stationsLen - 1]`, which on an empty list is an
out-of-bounds access (modelled as `none`). -/
def prevStation (freq : ℚ) (l : List Station) : Option ℚ :=
  match l.reverse.find? (fun s => decide (s.frequency < freq)) with
  | some s => some s.frequency
  | none => l.getLast?.map Station.frequency

/-- One mutating call on the preset store. -/
inductive Op where
  | save (name : String) (frequency : ℚ) (overwrite : Bool)
  | remove (frequency : ℚ)
  | removeAll
deriving Repr

/-- Effect of one store call on the station list. -/
def applyOp (l : List Station) : Op → List Station
  | Op.save n f o => save n f o l
  | Op.remove f => remove f l
  | Op.removeAll => removeAll

/-- State of `getStationList()` after a call sequence starting from the empty
collection. -/
def run (ops : List Op) : List Station := ops.foldl applyOp []

/-- The station list is strictly ascending by frequency. -/
def StrictSorted (l : List Station) : Prop :=
  l.Pairwise (fun a b => a.frequency < b.frequency)

instance : DecidablePred StrictSorted := fun l =>
  inferInstanceAs (Decidable (l.Pairwise _))

end Stations

namespace FMRadio

open Stations

/-- Device states of the Tizen FM radio (`RADIO_STATE` in `radio.js`:
`PLAY = 'PLAYING'`, `SCAN = 'SCANNING'`; `READY` is the idle device state). -/
inductive RState where
  | PLAY
  | SCAN
  | READY
deriving DecidableEq, Repr

/-- The tuner session: the device-facing state of `radio.js`.
`frequency` is the raw device-reported frequency; `frequencyBeforeScan` and
`stationCount` are the module variables of the same names; `tuneCalls`
records the arguments of every device-level `radio.start(freq)` call. -/
structure Radio where
  state : RState
  frequency : ℚ
  frequencyBeforeScan : ℚ
  stationCount : Nat
  tuneCalls : List ℚ
deriving DecidableEq, Repr

/-- The device primitive `radio.start(freq)` (external Tizen collaborator):
tunes the hardware, which then reports state `PLAYING`. -/
def deviceStart (m : Radio) (f : ℚ) : Radio :=
  { m with state := RState.PLAY, frequency := f, tuneCalls := m.tuneCalls ++ [f] }

/-- The device primitive `radio.stop()`: the hardware leaves `PLAYING`. -/
def deviceStop (m : Radio) : Radio := { m with state := RState.READY }

/-- Model of `getFrequency()` (`radio.js` lines 193-195):
`Math.round(radio.frequency * 10) / 10`. -/
def getFrequency (m : Radio) : ℚ := ((round (m.frequency * 10) : ℤ) : ℚ) / 10

/-- Model of `start(freq)` (`radio.js` lines 215-219): forwards to the device unless
the state is `SCANNING`. -/
def start (m : Radio) (f : ℚ) : Radio :=
  if m.state ≠ RState.SCAN then deviceStart m f else m

/-- Model of `scanStopSuccess()` (`radio.js` lines 238-241): restart playback at the
recorded pre-scan frequency, then clear the restore point. -/
def scanStopSuccess (m : Radio) : Radio :=
  { start m m.frequencyBeforeScan with frequencyBeforeScan := 0 }

/-- Model of `scanStart()` (`radio.js` lines 289-296): stop the device if playing,
reset the station counter, record the current (rounded) frequency as the
restore point, and launch the device scan (the device enters `SCANNING`). -/
def scanStart (m : Radio) : Radio :=
  let m1 := if m.state = RState.PLAY then deviceStop m else m
  { m1 with
    stationCount := 0
    frequencyBeforeScan := getFrequency m1
    state := RState.SCAN }

/-- Model of `scanStop()` (`radio.js` lines 304-308), success path: only while
`SCANNING`, ask the device to cancel; on a successful cancel the device has
left `SCANNING` (it reports `READY`) and `scanStopSuccess` runs. -/
def scanStop (m : Radio) : Radio :=
  if m.state = RState.SCAN then scanStopSuccess { m with state := RState.READY }
  else m

/-- Model of `onfrequencyfound(frequency)` (`radio.js` lines 124-130): given the band
bounds and the previous counter value, returns the progress value passed to
`popup.updateProgress` and the new counter.
`range = maxF*10 - minF*10`, `progress = ((frequency - minF) * 1000) / range`. -/
def onFrequencyFound (minF maxF f : ℚ) (count : Nat) : ℚ × Nat :=
  (((f - minF) * 1000) / (maxF * 10 - minF * 10), count + 1)

/-- The save loop of `onfinished(frequencies)` (`radio.js` lines 149-151):
`stations.save('Station ' + (i + 1), frequencies[i])` for each index; the
omitted third argument makes `overwrite === true` false, so overwrite is
`false`. -/
def saveAllLoop : List ℚ → Nat → List Station → List Station
  | [], _, l => l
  | f :: rest, i, l =>
    saveAllLoop rest (i + 1) (save ("Station " ++ toString (i + 1)) f false l)

/-- Model of `onfinished(frequencies)` (`radio.js` lines 144-153): save every found
frequency into the given store state and fire `switchToFrequency` with
`frequencies[0]` (`none` models the out-of-bounds read on an empty list).
Also sets `stationCount = frequencies.length` (returned last). -/
def onFinished (freqs : List ℚ) (store : List Station) :
    List Station × Option ℚ × Nat :=
  (saveAllLoop freqs 0 store, freqs.head?, freqs.length)

/-- Model of `oninterruptfinished` (`radio.js` lines 356-358):
`start(getFrequency())`. -/
def onInterruptFinished (m : Radio) : Radio := start m (getFrequency m)

/-- Model of `onChangeAntennaConnectionListener(isAntennaConnected)` (`radio.js`
lines 316-320): on reconnect, `start(getFrequency())`. -/
def onChangeAntennaConnection (m : Radio) (isAntennaConnected : Bool) : Radio :=
  if isAntennaConnected then start m (getFrequency m) else m

end FMRadio

namespace MainView

/-- Model of `tune(frequency)` of `src/js/views/main.js` lines 238-246: resolve the
requested frequency by wraparound before forwarding it to `radio.start`. -/
def tune (minF maxF f : ℚ) : ℚ :=
  if f < minF then maxF
  else if f > maxF then minF
  else f

/-- Model of `refreshStation()` (`main.js` lines 148-160): the value persisted by
`stations.setLastFrequency` is `radio.getFrequency()`. -/
def refreshStationLastFrequency (m : FMRadio.Radio) : ℚ := FMRadio.getFrequency m

end MainView

namespace Stations

/-- Rewriting lemma: `save` when the frequency already exists in the list. -/
theorem save_of_found {n : String} {f : ℚ} {o : Bool} {l l' : List Station}
    (h : saveLoop n f o l = some l') : save n f o l = l' := by
  simp [save, h]

/-- Rewriting lemma: `save` when the frequency is absent from the list. -/
theorem save_of_not_found {n : String} {f : ℚ} {o : Bool} {l : List Station}
    (h : saveLoop n f o l = none) :
    save n f o l = sortStations (l ++ [{ name := n, frequency := f }]) := by
  simp [save, h]

/-- The save loop never changes the frequency sequence of the list. -/
theorem saveLoop_some_map {n : String} {f : ℚ} {o : Bool} :
    ∀ {l l' : List Station}, saveLoop n f o l = some l' →
      l'.map Station.frequency = l.map Station.frequency := by
  intro l
  induction l with
  | nil => intro l' h; simp [saveLoop] at h
  | cons s rest ih =>
    intro l' h
    by_cases hs : s.frequency = f
    · simp only [saveLoop, if_pos hs] at h
      cases h
      cases o <;> rfl
    · simp only [saveLoop, if_neg hs] at h
      cases e : saveLoop n f o rest with
      | none => rw [e] at h; simp at h
      | some r' =>
        rw [e] at h
        have h' : some (s :: r') = some l' := h
        cases h'
        simp [ih e]

/-- The save loop fails exactly when no station has the frequency. -/
theorem saveLoop_eq_none {n : String} {f : ℚ} {o : Bool} {l : List Station} :
    saveLoop n f o l = none ↔ ∀ s ∈ l, s.frequency ≠ f := by
  induction l with
  | nil => simp [saveLoop]
  | cons s rest ih =>
    by_cases hs : s.frequency = f
    · simp [saveLoop, hs]
    · simp [saveLoop, hs, ih]

/-- With `overwrite = false`, the save loop returns the list unchanged when
some station already has the frequency. -/
theorem saveLoop_false_of_mem {n : String} {f : ℚ} {l : List Station}
    (h : ∃ s ∈ l, s.frequency = f) : saveLoop n f false l = some l := by
  induction l with
  | nil => simp at h
  | cons s rest ih =>
    by_cases hs : s.frequency = f
    · simp [saveLoop, hs]
    · have : ∃ s ∈ rest, s.frequency = f := by
        rcases h with ⟨t, ht, hf⟩
        rcases List.mem_cons.mp ht with rfl | htr
        · exact absurd hf hs
        · exact ⟨t, htr, hf⟩
      simp [saveLoop, hs, ih this]

/-- After `save name f o l`, some station carries frequency `f`. -/
theorem mem_freq_save (n : String) (f : ℚ) (o : Bool) (l : List Station) :
    ∃ s ∈ save n f o l, s.frequency = f := by
  cases e : saveLoop n f o l with
  | some l' =>
    rw [save_of_found e]
    have hne : ¬∀ s ∈ l, s.frequency ≠ f := by
      intro hall
      rw [← saveLoop_eq_none (n := n) (o := o)] at hall
      rw [e] at hall
      exact Option.noConfusion hall
    push_neg at hne
    rcases hne with ⟨t, ht, hf⟩
    have : f ∈ l'.map Station.frequency := by
      rw [saveLoop_some_map e]
      exact List.mem_map.mpr ⟨t, ht, hf⟩
    rcases List.mem_map.mp this with ⟨t', ht', hf'⟩
    exact ⟨t', ht', hf'⟩
  | none =>
    rw [save_of_not_found e]
    refine ⟨{ name := n, frequency := f }, ?_, rfl⟩
    rw [sortStations, List.mem_insertionSort]
    simp

end Stations

namespace Stations

/-- Two pairwise relations hold together pairwise. -/
theorem pairwise_and {R S : Station → Station → Prop} :
    ∀ {l : List Station}, l.Pairwise R → l.Pairwise S →
      l.Pairwise (fun a b => R a b ∧ S a b) := by
  intro l
  induction l with
  | nil => intro _ _; exact List.Pairwise.nil
  | cons s rest ih =>
    intro hR hS
    rcases List.pairwise_cons.mp hR with ⟨hRh, hRt⟩
    rcases List.pairwise_cons.mp hS with ⟨hSh, hSt⟩
    exact List.pairwise_cons.mpr ⟨fun b hb => ⟨hRh b hb, hSh b hb⟩, ih hRt hSt⟩

/-- A strictly sorted list has pairwise distinct frequencies. -/
theorem nodup_map_freq {l : List Station} (h : StrictSorted l) :
    (l.map Station.frequency).Nodup :=
  List.pairwise_map.mpr (h.imp ne_of_lt)

/-- A list sorted by `stLE` whose frequencies are distinct is strictly
sorted. -/
theorem strictSorted_of_le_nodup {l : List Station} (hle : l.Pairwise stLE)
    (hnd : (l.map Station.frequency).Nodup) : StrictSorted l := by
  have hne : l.Pairwise (fun a b => a.frequency ≠ b.frequency) :=
    List.pairwise_map.mp hnd
  exact (pairwise_and hle hne).imp (fun h => lt_of_le_of_ne h.1 h.2)

/-- The operation `save` preserves strict sortedness by frequency. -/
theorem strictSorted_save {n : String} {f : ℚ} {o : Bool} {l : List Station}
    (h : StrictSorted l) : StrictSorted (save n f o l) := by
  cases e : saveLoop n f o l with
  | some l' =>
    rw [save_of_found e]
    have h2 : (l'.map Station.frequency).Pairwise (· < ·) := by
      rw [saveLoop_some_map e]
      exact List.pairwise_map.mpr h
    exact List.pairwise_map.mp h2
  | none =>
    rw [save_of_not_found e]
    have hfresh : ∀ s ∈ l, s.frequency ≠ f := saveLoop_eq_none.mp e
    have hnodupL :
        ((l ++ [Station.mk n f]).map Station.frequency).Nodup := by
      rw [List.map_append]
      rw [List.nodup_append]
      refine ⟨nodup_map_freq h, List.nodup_singleton f, ?_⟩
      intro a ha hb
      rcases List.mem_map.mp ha with ⟨s, hs, rfl⟩
      have hbf : s.frequency = f := by simpa using hb
      exact hfresh s hs hbf
    have hperm :
        List.Perm (sortStations (l ++ [Station.mk n f]))
          (l ++ [Station.mk n f]) :=
      List.perm_insertionSort stLE _
    have hnodupS :
        ((sortStations (l ++ [Station.mk n f])).map Station.frequency).Nodup :=
      ((hperm.map Station.frequency).nodup_iff).mpr hnodupL
    have hsorted :
        (sortStations (l ++ [Station.mk n f])).Pairwise stLE :=
      List.sorted_insertionSort stLE _
    exact strictSorted_of_le_nodup hsorted hnodupS

/-- The operation `remove` deletes at most one element, leaving a sublist. -/
theorem remove_sublist (f : ℚ) :
    ∀ l : List Station, List.Sublist (remove f l) l := by
  intro l
  induction l with
  | nil => exact List.Sublist.refl []
  | cons s rest ih =>
    by_cases hs : s.frequency = f
    · simp only [remove, if_pos hs]
      exact (List.Sublist.refl rest).cons s
    · simp only [remove, if_neg hs]
      exact ih.cons₂ s

/-- The operation `remove` preserves strict sortedness by frequency. -/
theorem strictSorted_remove {f : ℚ} {l : List Station} (h : StrictSorted l) :
    StrictSorted (remove f l) :=
  List.Pairwise.sublist (remove_sublist f l) h

/-- Every store call preserves strict sortedness by frequency. -/
theorem strictSorted_applyOp {l : List Station} (h : StrictSorted l)
    (op : Op) : StrictSorted (applyOp l op) := by
  cases op with
  | save n f o => exact strictSorted_save h
  | remove f => exact strictSorted_remove h
  | removeAll => exact List.Pairwise.nil

/-- Folding any call sequence over a strictly sorted list keeps it strictly
sorted. -/
theorem strictSorted_foldl (ops : List Op) :
    ∀ l, StrictSorted l → StrictSorted (ops.foldl applyOp l) := by
  induction ops with
  | nil => intro l h; exact h
  | cons op ops ih => intro l h; exact ih _ (strictSorted_applyOp h op)

/-- List lemma: `find?` skips a prefix on which the predicate is false. -/
theorem find?_append_false {α : Type*} {p : α → Bool} :
    ∀ {u : List α}, (∀ x ∈ u, p x = false) →
      ∀ w : List α, (u ++ w).find? p = w.find? p := by
  intro u
  induction u with
  | nil => intro _ w; rfl
  | cons a u ih =>
    intro h w
    have ha : ¬p a = true := by
      rw [h a (List.mem_cons_self a u)]
      simp
    rw [List.cons_append, List.find?_cons_of_neg _ ha,
      ih (fun x hx => h x (List.mem_cons_of_mem a hx)) w]

/-- Unfolding `nextStation` when the search succeeds. -/
theorem nextStation_eq_of_find {f : ℚ} {l : List Station} {w : Station}
    (hfind : l.find? (fun t => decide (f < t.frequency)) = some w) :
    nextStation f l = some w.frequency := by
  unfold nextStation
  rw [hfind]

/-- Unfolding `nextStation` when the search fails: fall back to element 0. -/
theorem nextStation_eq_of_find_none {f : ℚ} {l : List Station}
    (hfind : l.find? (fun t => decide (f < t.frequency)) = none) :
    nextStation f l = l.head?.map Station.frequency := by
  unfold nextStation
  rw [hfind]

/-- Unfolding `prevStation` when the backwards search succeeds. -/
theorem prevStation_eq_of_find {f : ℚ} {l : List Station} {w : Station}
    (hfind : l.reverse.find? (fun t => decide (t.frequency < f)) = some w) :
    prevStation f l = some w.frequency := by
  unfold prevStation
  rw [hfind]

/-- Unfolding `prevStation` when the backwards search fails: fall back to the
last element. -/
theorem prevStation_eq_of_find_none {f : ℚ} {l : List Station}
    (hfind : l.reverse.find? (fun t => decide (t.frequency < f)) = none) :
    prevStation f l = l.getLast?.map Station.frequency := by
  unfold prevStation
  rw [hfind]

/-- In a strictly sorted list, `nextStation` at the frequency of a
non-maximal station returns the next station's frequency. -/
theorem next_of_adjacent {u v : List Station} {s w : Station}
    (hs : StrictSorted (u ++ s :: w :: v)) :
    nextStation s.frequency (u ++ s :: w :: v) = some w.frequency := by
  have P := List.pairwise_append.mp hs
  have hpred : ∀ x ∈ u,
      (fun t => decide (s.frequency < t.frequency)) x = false := by
    intro x hx
    exact decide_eq_false
      (not_lt.mpr (le_of_lt (P.2.2 x hx s (List.mem_cons_self _ _))))
  have hsw : s.frequency < w.frequency :=
    (List.pairwise_cons.mp P.2.1).1 w (List.mem_cons_self _ _)
  have hfind : (u ++ s :: w :: v).find?
      (fun t => decide (s.frequency < t.frequency)) = some w := by
    rw [find?_append_false hpred,
      List.find?_cons_of_neg _ (by simp)]
    exact List.find?_cons_of_pos _ (decide_eq_true hsw)
  exact nextStation_eq_of_find hfind

/-- In a strictly sorted list, `prevStation` at the frequency of a
non-minimal station returns the previous station's frequency. -/
theorem prev_of_adjacent {u v : List Station} {s w : Station}
    (hs : StrictSorted (u ++ s :: w :: v)) :
    prevStation w.frequency (u ++ s :: w :: v) = some s.frequency := by
  have P := List.pairwise_append.mp hs
  have hsw : s.frequency < w.frequency :=
    (List.pairwise_cons.mp P.2.1).1 w (List.mem_cons_self _ _)
  have hwv : ∀ x ∈ v, w.frequency < x.frequency :=
    (List.pairwise_cons.mp (List.pairwise_cons.mp P.2.1).2).1
  have hrev : (u ++ s :: w :: v).reverse =
      (v.reverse ++ [w]) ++ s :: u.reverse := by
    simp
  have hpred : ∀ x ∈ v.reverse ++ [w],
      (fun t => decide (t.frequency < w.frequency)) x = false := by
    intro x hx
    rcases List.mem_append.mp hx with hx | hx
    · exact decide_eq_false
        (not_lt.mpr (le_of_lt (hwv x (List.mem_reverse.mp hx))))
    · have hxw : x = w := by simpa using hx
      subst hxw
      exact decide_eq_false (lt_irrefl _)
  have hfind : (u ++ s :: w :: v).reverse.find?
      (fun t => decide (t.frequency < w.frequency)) = some s := by
    rw [hrev, find?_append_false hpred]
    exact List.find?_cons_of_pos _ (decide_eq_true hsw)
  exact prevStation_eq_of_find hfind

end Stations

/-- Claim C1: after any sequence of `save`/`remove`/`removeAll` calls
starting from the empty collection, the station list is strictly ascending
by frequency, and in particular no two presets share a frequency. -/
theorem c1_station_list_invariant (ops : List Stations.Op) :
    Stations.StrictSorted (Stations.run ops) ∧
      ((Stations.run ops).map Stations.Station.frequency).Nodup := by
  have h := Stations.strictSorted_foldl ops [] List.Pairwise.nil
  exact ⟨h, Stations.nodup_map_freq h⟩

/-- Claim C5: saving the same `(name, frequency)` pair twice with
`overwrite = false` leaves exactly the collection produced by saving it
once — the second call finds the frequency and changes nothing. -/
theorem c5_save_idempotent (n : String) (f : ℚ) (l : List Stations.Station) :
    Stations.save n f false (Stations.save n f false l) =
      Stations.save n f false l :=
  Stations.save_of_found
    (Stations.saveLoop_false_of_mem (Stations.mem_freq_save n f false l))

/-- Claim C2 (code behaviour at the failing input): on the empty collection,
`nextStation` and `prevStation` have no station to fall back to — the source
reads `stationList[0].frequency` / `stationList[stationsLen - 1].frequency`
past the end of the array (the `none` outcome of the model), instead of any
defined "no presets available" result. -/
theorem c2_empty_collection_out_of_bounds (f : ℚ) :
    Stations.nextStation f [] = none ∧ Stations.prevStation f [] = none := by
  constructor <;> rfl

/-- Claim C4: manual tuning resolves a requested frequency by a single
wraparound — below the band it becomes `maxFrequency`, above the band it
becomes `minFrequency`, inside the band it is unchanged — and the resolved
frequency always lies within `[minFrequency, maxFrequency]`. -/
theorem c4_tune_wraparound (minF maxF f : ℚ) (h : minF ≤ maxF) :
    ((f < minF → MainView.tune minF maxF f = maxF) ∧
      (maxF < f → MainView.tune minF maxF f = minF) ∧
      (minF ≤ f → f ≤ maxF → MainView.tune minF maxF f = f)) ∧
    minF ≤ MainView.tune minF maxF f ∧ MainView.tune minF maxF f ≤ maxF := by
  unfold MainView.tune
  split_ifs with h1 h2
  · exact ⟨⟨fun _ => rfl, fun hc => absurd (lt_trans h1 (lt_of_le_of_lt h hc))
      (lt_irrefl f), fun hc _ => absurd h1 (not_lt.mpr hc)⟩, h, le_refl _⟩
  · exact ⟨⟨fun hc => absurd hc h1, fun _ => rfl,
      fun _ hc => absurd h2 (not_lt.mpr hc)⟩, le_refl _, h⟩
  · exact ⟨⟨fun hc => absurd hc h1, fun hc => absurd hc h2,
      fun _ _ => rfl⟩, not_lt.mp h1, not_lt.mp h2⟩

/-- Witness for claim C4 at `minFrequency = 87`, `maxFrequency = 108`,
`f = 200`. -/
theorem c4_tune_wraparound_witness :
    ((200 < (87 : ℚ) → MainView.tune 87 108 200 = 108) ∧
      ((108 : ℚ) < 200 → MainView.tune 87 108 200 = 87) ∧
      ((87 : ℚ) ≤ 200 → (200 : ℚ) ≤ 108 → MainView.tune 87 108 200 = 200)) ∧
    (87 : ℚ) ≤ MainView.tune 87 108 200 ∧ MainView.tune 87 108 200 ≤ 108 :=
  c4_tune_wraparound 87 108 200 (by decide)

/-- Claim C8: `start(f)` while the tuner is `SCANNING` is silently ignored —
the session is unchanged and no device tune call is recorded. -/
theorem c8_start_noop_while_scanning (m : FMRadio.Radio) (f : ℚ)
    (h : m.state = FMRadio.RState.SCAN) :
    FMRadio.start m f = m ∧ (FMRadio.start m f).tuneCalls = m.tuneCalls := by
  have : FMRadio.start m f = m := by simp [FMRadio.start, h]
  exact ⟨this, by rw [this]⟩

/-- Witness for claim C8: a scanning session at frequency 100. -/
theorem c8_start_noop_while_scanning_witness :
    FMRadio.start
        { state := FMRadio.RState.SCAN, frequency := 100,
          frequencyBeforeScan := 95, stationCount := 0, tuneCalls := [] } 99 =
      { state := FMRadio.RState.SCAN, frequency := 100,
        frequencyBeforeScan := 95, stationCount := 0, tuneCalls := [] } ∧
    (FMRadio.start
        { state := FMRadio.RState.SCAN, frequency := 100,
          frequencyBeforeScan := 95, stationCount := 0, tuneCalls := [] } 99).tuneCalls =
      ([] : List ℚ) :=
  c8_start_noop_while_scanning _ 99 rfl

/-- Claim C3: on a collection with at least two presets, for a frequency
that is itself a preset frequency, `prevStation (nextStation f)` returns to
`f`, including the wrap cases at the lowest and highest preset. -/
theorem c3_next_prev_roundtrip (l : List Stations.Station)
    (hs : Stations.StrictSorted l) (hlen : 2 ≤ l.length) (f : ℚ)
    (hf : f ∈ l.map Stations.Station.frequency) :
    (Stations.nextStation f l).bind (fun g => Stations.prevStation g l) =
      some f := by
  rcases List.mem_map.mp hf with ⟨s, hsl, rfl⟩
  rcases List.append_of_mem hsl with ⟨u, v, rfl⟩
  cases v with
  | cons w v' =>
    rw [Stations.next_of_adjacent hs]
    exact Stations.prev_of_adjacent hs
  | nil =>
    cases u with
    | nil => simp at hlen
    | cons m u' =>
      have P := List.pairwise_append.mp hs
      have hs' : Stations.StrictSorted (m :: (u' ++ [s])) := by
        have := hs
        rwa [List.cons_append] at this
      have hmy : ∀ y ∈ u' ++ [s], m.frequency < y.frequency :=
        (List.pairwise_cons.mp hs').1
      have hfindn : ((m :: u') ++ [s]).find?
          (fun t => decide (s.frequency < t.frequency)) = none := by
        rw [List.find?_eq_none]
        intro x hx
        simp only [decide_eq_true_eq]
        rcases List.mem_append.mp hx with hx | hx
        · exact not_lt.mpr (le_of_lt (P.2.2 x hx s (List.mem_cons_self _ _)))
        · have hxs : x = s := by simpa using hx
          subst hxs
          exact lt_irrefl _
      have hnext : Stations.nextStation s.frequency ((m :: u') ++ [s]) =
          some m.frequency := by
        rw [Stations.nextStation_eq_of_find_none hfindn]
        rfl
      rw [hnext]
      show Stations.prevStation m.frequency ((m :: u') ++ [s]) =
        some s.frequency
      have hfindp : ((m :: u') ++ [s]).reverse.find?
          (fun t => decide (t.frequency < m.frequency)) = none := by
        rw [List.find?_eq_none]
        intro x hx
        have hx' : x ∈ (m :: u') ++ [s] := List.mem_reverse.mp hx
        simp only [decide_eq_true_eq]
        have hx'' : x ∈ m :: (u' ++ [s]) := by rwa [List.cons_append] at hx'
        rcases List.mem_cons.mp hx'' with rfl | hxm
        · exact lt_irrefl _
        · exact not_lt.mpr (le_of_lt (hmy x hxm))
      have hlast : ((m :: u') ++ [s]).getLast? = some s :=
        List.getLast?_concat _
      rw [Stations.prevStation_eq_of_find_none hfindp, hlast]
      rfl

/-- Witness for claim C3: the three-preset collection 90 / 95 / 101 at
`f = 101` (the wrap case). -/
theorem c3_next_prev_roundtrip_witness :
    Stations.StrictSorted
        [Stations.Station.mk "A" 90, Stations.Station.mk "B" 95,
          Stations.Station.mk "C" 101] ∧
      2 ≤ ([Stations.Station.mk "A" 90, Stations.Station.mk "B" 95,
          Stations.Station.mk "C" 101] : List Stations.Station).length ∧
      (101 : ℚ) ∈ ([Stations.Station.mk "A" 90, Stations.Station.mk "B" 95,
          Stations.Station.mk "C" 101].map Stations.Station.frequency) ∧
      (Stations.nextStation 101
            [Stations.Station.mk "A" 90, Stations.Station.mk "B" 95,
              Stations.Station.mk "C" 101]).bind
          (fun g => Stations.prevStation g
            [Stations.Station.mk "A" 90, Stations.Station.mk "B" 95,
              Stations.Station.mk "C" 101]) = some 101 :=
  ⟨by decide, by decide, by decide,
    c3_next_prev_roundtrip _ (by decide) (by decide) 101 (by decide)⟩

/-- Claim C7: cancelling a scan that started at 95.0 leaves the session
playing at 95.0 with the restore point cleared, and `scanStop` outside
`SCANNING` is a no-op. -/
theorem c7_scanstop_restores (m : FMRadio.Radio) :
    (m.state = FMRadio.RState.SCAN → m.frequencyBeforeScan = 95 →
      (FMRadio.scanStop m).state = FMRadio.RState.PLAY ∧
        (FMRadio.scanStop m).frequency = 95 ∧
        (FMRadio.scanStop m).frequencyBeforeScan = 0) ∧
    (m.state ≠ FMRadio.RState.SCAN → FMRadio.scanStop m = m) := by
  constructor
  · intro h1 h2
    simp [FMRadio.scanStop, FMRadio.scanStopSuccess, FMRadio.start,
      FMRadio.deviceStart, h1, h2]
  · intro h1
    simp [FMRadio.scanStop, h1]

/-- Witness for claim C7: a scanning session whose scan started at 95, and a
playing session for the no-op clause. -/
theorem c7_scanstop_restores_witness :
    ((FMRadio.scanStop
          { state := FMRadio.RState.SCAN, frequency := 100,
            frequencyBeforeScan := 95, stationCount := 0,
            tuneCalls := [] }).state = FMRadio.RState.PLAY ∧
      (FMRadio.scanStop
          { state := FMRadio.RState.SCAN, frequency := 100,
            frequencyBeforeScan := 95, stationCount := 0,
            tuneCalls := [] }).frequency = 95 ∧
      (FMRadio.scanStop
          { state := FMRadio.RState.SCAN, frequency := 100,
            frequencyBeforeScan := 95, stationCount := 0,
            tuneCalls := [] }).frequencyBeforeScan = 0) ∧
    FMRadio.scanStop
        { state := FMRadio.RState.PLAY, frequency := 100,
          frequencyBeforeScan := 0, stationCount := 0, tuneCalls := [] } =
      { state := FMRadio.RState.PLAY, frequency := 100,
        frequencyBeforeScan := 0, stationCount := 0, tuneCalls := [] } :=
  ⟨(c7_scanstop_restores _).1 rfl rfl,
    (c7_scanstop_restores _).2 (by decide)⟩

/-- Claim C9: each per-frequency scan callback reports the progress value
`((f - min) * 1000) / (max*10 - min*10)`, which equals the percentage
`100 * (f - min) / (max - min)`, lies in `[0, 100]` for `f` in band, and
increments the station counter by one. -/
theorem c9_scan_progress (minF maxF f : ℚ) (c : Nat) (h1 : minF < maxF)
    (h2 : minF ≤ f) (h3 : f ≤ maxF) :
    (FMRadio.onFrequencyFound minF maxF f c).1 =
        100 * (f - minF) / (maxF - minF) ∧
      0 ≤ (FMRadio.onFrequencyFound minF maxF f c).1 ∧
      (FMRadio.onFrequencyFound minF maxF f c).1 ≤ 100 ∧
      (FMRadio.onFrequencyFound minF maxF f c).2 = c + 1 := by
  have hd : (0 : ℚ) < maxF - minF := sub_pos.mpr h1
  have hd10 : (0 : ℚ) < maxF * 10 - minF * 10 := by linarith
  refine ⟨?_, ?_, ?_, rfl⟩
  · show ((f - minF) * 1000) / (maxF * 10 - minF * 10) =
      100 * (f - minF) / (maxF - minF)
    rw [div_eq_div_iff (ne_of_gt hd10) (ne_of_gt hd)]
    ring
  · exact div_nonneg (by linarith) (le_of_lt hd10)
  · show ((f - minF) * 1000) / (maxF * 10 - minF * 10) ≤ 100
    rw [div_le_iff₀ hd10]
    linarith

/-- Witness for claim C9: band `[87, 108]`, found frequency 90, previous
count 5. -/
theorem c9_scan_progress_witness :
    (FMRadio.onFrequencyFound 87 108 90 5).1 =
        100 * (90 - 87) / (108 - 87) ∧
      0 ≤ (FMRadio.onFrequencyFound 87 108 90 5).1 ∧
      (FMRadio.onFrequencyFound 87 108 90 5).1 ≤ 100 ∧
      (FMRadio.onFrequencyFound 87 108 90 5).2 = 5 + 1 :=
  c9_scan_progress 87 108 90 5 (by decide) (by decide) (by decide)

/-- Claim C6: scan completion with discovered list `[90.0, 95.5, 101.2]` on
an empty store saves presets `Station 1`/`Station 2`/`Station 3` at those
frequencies in ascending order with overwrite `false`, sets the counter to 3,
fires `switchToFrequency` with `90.0`, and the resolved tuning frequency is
`90.0` itself (in band), so playback restarts at `90.0`. -/
theorem c6_scan_finished_bulk_save :
    FMRadio.onFinished [90.0, 95.5, 101.2] [] =
      ([Stations.Station.mk "Station 1" 90.0,
        Stations.Station.mk "Station 2" 95.5,
        Stations.Station.mk "Station 3" 101.2], some 90.0, 3) ∧
    MainView.tune 87.5 108.0 90.0 = 90.0 ∧
    (FMRadio.start
        { state := FMRadio.RState.READY, frequency := 95,
          frequencyBeforeScan := 0, stationCount := 3,
          tuneCalls := [] } (MainView.tune 87.5 108.0 90.0)).frequency =
      90.0 ∧
    (FMRadio.start
        { state := FMRadio.RState.READY, frequency := 95,
          frequencyBeforeScan := 0, stationCount := 3,
          tuneCalls := [] } (MainView.tune 87.5 108.0 90.0)).state =
      FMRadio.RState.PLAY := by
  have htune : MainView.tune 87.5 108.0 90.0 = 90.0 := by
    norm_num [MainView.tune]
  refine ⟨?_, htune, ?_, ?_⟩
  · norm_num [FMRadio.onFinished, FMRadio.saveAllLoop, Stations.save,
      Stations.saveLoop, Stations.sortStations, List.insertionSort,
      List.orderedInsert, Stations.stLE]
    exact ⟨rfl, rfl, rfl⟩
  · rw [htune]
    rfl
  · rw [htune]
    rfl

/-- Claim C10: `getFrequency()` returns the device frequency rounded to the
nearest multiple of 0.1 (`round(f * 10) / 10`): the result is an integer
number of tenths, differs from the raw value by at most 1/20, and is exactly
the value recorded as the scan-restore point, persisted as the last
frequency, and used to resume playback after an interruption or antenna
reconnect. -/
theorem c10_getfrequency_rounded (m : FMRadio.Radio)
    (h : m.state ≠ FMRadio.RState.SCAN) :
    (∃ k : ℤ, FMRadio.getFrequency m = (k : ℚ) / 10) ∧
    |FMRadio.getFrequency m - m.frequency| ≤ 1 / 20 ∧
    (FMRadio.scanStart m).frequencyBeforeScan = FMRadio.getFrequency m ∧
    MainView.refreshStationLastFrequency m = FMRadio.getFrequency m ∧
    (FMRadio.onInterruptFinished m).frequency = FMRadio.getFrequency m ∧
    (FMRadio.onChangeAntennaConnection m true).frequency =
      FMRadio.getFrequency m := by
  refine ⟨⟨round (m.frequency * 10), rfl⟩, ?_, ?_, rfl, ?_, ?_⟩
  · have h1 : |m.frequency * 10 - (round (m.frequency * 10) : ℚ)| ≤ 1 / 2 :=
      abs_sub_round _
    have h2 : FMRadio.getFrequency m - m.frequency =
        -((m.frequency * 10 - (round (m.frequency * 10) : ℚ)) / 10) := by
      unfold FMRadio.getFrequency
      ring
    rw [h2, abs_neg, abs_div, abs_of_pos (by norm_num : (0 : ℚ) < 10)]
    calc |m.frequency * 10 - (round (m.frequency * 10) : ℚ)| / 10 ≤
          (1 / 2) / 10 := by
            exact div_le_div_of_nonneg_right h1 (by norm_num) |>.trans_eq rfl
      _ = 1 / 20 := by norm_num
  · by_cases hp : m.state = FMRadio.RState.PLAY <;>
      simp [FMRadio.scanStart, FMRadio.deviceStop, FMRadio.getFrequency, hp]
  · unfold FMRadio.onInterruptFinished FMRadio.start
    rw [if_pos h]
    rfl
  · unfold FMRadio.onChangeAntennaConnection
    rw [if_pos rfl]
    unfold FMRadio.start
    rw [if_pos h]
    rfl

/-- Witness for claim C10: a playing session with raw device frequency 90. -/
theorem c10_getfrequency_rounded_witness :
    (∃ k : ℤ, FMRadio.getFrequency
        { state := FMRadio.RState.PLAY, frequency := 90,
          frequencyBeforeScan := 0, stationCount := 0,
          tuneCalls := [] } = (k : ℚ) / 10) ∧
    |FMRadio.getFrequency
        { state := FMRadio.RState.PLAY, frequency := 90,
          frequencyBeforeScan := 0, stationCount := 0,
          tuneCalls := [] } - (90 : ℚ)| ≤ 1 / 20 ∧
    (FMRadio.scanStart
        { state := FMRadio.RState.PLAY, frequency := 90,
          frequencyBeforeScan := 0, stationCount := 0,
          tuneCalls := [] }).frequencyBeforeScan =
      FMRadio.getFrequency
        { state := FMRadio.RState.PLAY, frequency := 90,
          frequencyBeforeScan := 0, stationCount := 0, tuneCalls := [] } ∧
    MainView.refreshStationLastFrequency
        { state := FMRadio.RState.PLAY, frequency := 90,
          frequencyBeforeScan := 0, stationCount := 0, tuneCalls := [] } =
      FMRadio.getFrequency
        { state := FMRadio.RState.PLAY, frequency := 90,
          frequencyBeforeScan := 0, stationCount := 0, tuneCalls := [] } ∧
    (FMRadio.onInterruptFinished
        { state := FMRadio.RState.PLAY, frequency := 90,
          frequencyBeforeScan := 0, stationCount := 0,
          tuneCalls := [] }).frequency =
      FMRadio.getFrequency
        { state := FMRadio.RState.PLAY, frequency := 90,
          frequencyBeforeScan := 0, stationCount := 0, tuneCalls := [] } ∧
    (FMRadio.onChangeAntennaConnection
        { state := FMRadio.RState.PLAY, frequency := 90,
          frequencyBeforeScan := 0, stationCount := 0,
          tuneCalls := [] } true).frequency =
      FMRadio.getFrequency
        { state := FMRadio.RState.PLAY, frequency := 90,
          frequencyBeforeScan := 0, stationCount := 0, tuneCalls := [] } :=
  c10_getfrequency_rounded _ (by decide)
